import Mathlib

/-!
Verification of the core components of the `notionapiimporter` repository
(`src/index.js` and the backend templates): the bounded-concurrency limiter
(`createLimit`), the retrying call executor (`withRetry`), block sanitization
(`sanitizeBlocks`), the recursive tree replicator (`cloneBlocksRecursive`),
and the HMAC action-link signing pair (`buildActionUrl` / `verifySignature`).

The JavaScript source is shallowly embedded: stateful asynchronous code
becomes an explicit state machine (a step relation for arbitrary event-loop
interleavings plus a deterministic executable schedule), fallible code
returns `Except`, and machine integers are `Nat` (no overflow is relevant at
the magnitudes involved: retry counters, backoff milliseconds, list lengths).
-/

namespace NotionImporter

/-! ## Retrying call executor: `withRetry` (src/index.js lines 52-68)

```js
async function withRetry(fn, label = 'notion-call') {
  let attempt = 0;
  let wait = 500;
  while (true) {
    try {
      return await fn();
    } catch (err) {
      attempt++;
      const status = err?.status || err?.statusCode;
      if (attempt >= 5 || (status && status < 500 && status !== 429)) {
        throw err;
      }
      await new Promise(r => setTimeout(r, wait));
      wait = Math.min(wait * 2, 5000);
    }
  }
}
```

An invocation of `fn` is modelled by indexing: `op n` is the outcome of the
`n`-th invocation (0-based; the JS `attempt` counter equals the index of the
invocation whose outcome is being examined). An error carries an optional
numeric status, merging the JS `err?.status || err?.statusCode` access into
a single field.
-/

/-- An error thrown by a remote call, carrying the optional numeric status
code that `withRetry` reads via `err?.status || err?.statusCode`. -/
structure NotionError where
  status : Option Nat
deriving DecidableEq, Repr

/-- The fatality test `status && status < 500 && status !== 429` of
src/index.js line 61. A JS status of `0` is falsy, so `status &&` treats it
like an absent status (retryable); an absent status is retryable. -/
def isFatalStatus : Option Nat → Bool
  | some s => s != 0 && s < 500 && s != 429
  | none => false

/-- The observable behaviour of one `withRetry(fn)` call: the settled value,
how many times `fn` was invoked, and the backoff delays actually slept (in
order, in milliseconds). -/
structure RetryTrace (α : Type) where
  result : Except NotionError α
  calls : Nat
  waits : List Nat
deriving Repr

/-- The `while (true)` loop body of `withRetry`, entered with the current
`attempt` counter and `wait` backoff. The loop terminates because the code
throws as soon as `attempt` (incremented on each failure) reaches 5. -/
def withRetryGo {α : Type} (op : Nat → Except NotionError α) (attempt wait : Nat) :
    RetryTrace α :=
  match op attempt with
  | .ok v => ⟨.ok v, 1, []⟩
  | .error e =>
    if _h : 5 ≤ attempt + 1 ∨ isFatalStatus e.status = true then
      ⟨.error e, 1, []⟩
    else
      let rest := withRetryGo op (attempt + 1) (min (wait * 2) 5000)
      ⟨rest.result, rest.calls + 1, wait :: rest.waits⟩
termination_by 5 - attempt
decreasing_by
  simp only [not_or, not_le] at _h
  omega

/-- Entry point `withRetry(fn)`: start with `attempt = 0`, `wait = 500`. -/
def withRetry {α : Type} (op : Nat → Except NotionError α) : RetryTrace α :=
  withRetryGo op 0 500

/-! ## Bounded concurrency limiter: `createLimit` (src/index.js lines 28-50)

```js
function createLimit(concurrency = 2) {
  let active = 0;
  const queue = [];
  const next = () => {
    if (active >= concurrency) return;
    const item = queue.shift();
    if (!item) return;
    active++;
    item.fn()
      .then((res) => item.resolve(res))
      .catch((err) => item.reject(err))
      .finally(() => { active--; next(); });
  };
  return (fn) => new Promise((resolve, reject) => {
    queue.push({ fn, resolve, reject });
    if (typeof setImmediate === 'function') setImmediate(next); else setTimeout(next, 0);
  });
}
const limit = createLimit(3);
```

Tasks are identified by natural numbers; a task's eventual settlement is a
predetermined `outcome t : Except String Nat` (the value its promise would
resolve with, or the error it would reject with). The mutable closure state
(`active`, `queue`) becomes an explicit record; `active` is the length of
the `running` list. Event-loop interleavings are captured by a step
relation: `submit` is the returned function pushing onto the queue,
`promote` is the body of `next` past its two guards (it fires only when
`active < concurrency` and the queue is nonempty, and takes the queue
head, as `queue.shift()` does), and `finish` is the `.finally` callback
decrementing `active` and recording the settlement (the following `next()`
call is a subsequent `promote` step when its guards allow). -/

/-- The limiter's state: the closure variables of `createLimit` plus
bookkeeping (`started`, `settled`, `submitted`) recording the order in which
tasks were started, the settlements delivered, and the submission order. -/
structure LimState where
  queue : List Nat
  running : List Nat
  started : List Nat
  settled : List (Nat × Except String Nat)
  submitted : List Nat
deriving Repr

/-- The state of a freshly created limiter: empty queue, nothing running. -/
def limInit : LimState := ⟨[], [], [], [], []⟩

/-- One event-loop step of the limiter with concurrency ceiling `N`. -/
inductive LimiterStep (N : Nat) (outcome : Nat → Except String Nat) :
    LimState → LimState → Prop
  | submit (t : Nat) (s : LimState) :
      LimiterStep N outcome s
        { s with queue := s.queue ++ [t], submitted := s.submitted ++ [t] }
  | promote (t : Nat) (q : List Nat) (s : LimState)
      (hcap : s.running.length < N) (hq : s.queue = t :: q) :
      LimiterStep N outcome s
        { s with queue := q, running := s.running ++ [t], started := s.started ++ [t] }
  | finish (t : Nat) (r₁ r₂ : List Nat) (s : LimState)
      (hr : s.running = r₁ ++ t :: r₂) :
      LimiterStep N outcome s
        { s with running := r₁ ++ r₂, settled := s.settled ++ [(t, outcome t)] }

/-- States reachable from the fresh limiter by event-loop steps. -/
inductive LimReach (N : Nat) (outcome : Nat → Except String Nat) : LimState → Prop
  | init : LimReach N outcome limInit
  | step {s s' : LimState} :
      LimReach N outcome s → LimiterStep N outcome s s' → LimReach N outcome s'

/-- The `promote` step as a function (identity when the queue is empty):
`next()` past its capacity guard. -/
def promoteS (s : LimState) : LimState :=
  match s.queue with
  | [] => s
  | t :: q =>
    { s with queue := q, running := s.running ++ [t], started := s.started ++ [t] }

/-- The `.finally` callback for the oldest running task: decrement `active`
and record the settlement delivered to the caller's promise. -/
def finishS (outcome : Nat → Except String Nat) (s : LimState) : LimState :=
  match s.running with
  | [] => s
  | t :: r => { s with running := r, settled := s.settled ++ [(t, outcome t)] }

/-- A deterministic fair schedule of the event loop: start a queued task
whenever capacity exists, otherwise let the oldest running task finish.
Every limiter client in this program eventually observes such a drain, since
each submission and each completion re-invokes `next`. -/
def drain (N : Nat) (outcome : Nat → Except String Nat) (s : LimState) : LimState :=
  if h1 : s.running.length < N ∧ s.queue ≠ [] then
    drain N outcome (promoteS s)
  else if h2 : s.running ≠ [] then
    drain N outcome (finishS outcome s)
  else s
termination_by 2 * s.queue.length + s.running.length
decreasing_by
  · rcases h1 with ⟨-, hq⟩
    rcases hqm : s.queue with - | ⟨t, q⟩
    · exact absurd hqm hq
    · simp [promoteS, hqm] <;> omega
  · rcases hrm : s.running with - | ⟨t, r⟩
    · exact absurd hrm h2
    · simp [finishS, hrm] <;> omega

/-- The limiter state after `M` tasks (numbered `0, …, M-1`) have been
submitted and before any has started. -/
def limSubmitted (M : Nat) : LimState :=
  { queue := List.range M, running := [], started := [], settled := [],
    submitted := List.range M }

/-! ## JSON values and block sanitization: `sanitizeBlocks`
(src/index.js lines 101-116)

```js
function sanitizeBlocks(blocks) {
  return blocks
    .map(b => {
      const { type } = b;
      const base = { type };
      if (b[type]) base[type] = JSON.parse(JSON.stringify(b[type]));
      if (base[type]?.rich_text) {
        base[type].rich_text = base[type].rich_text.map(rt => ({ ...rt }));
      }
      if (b.has_children) {
        base.has_children = true;
      }
      return base;
    })
    .filter(Boolean);
}
```

Payloads are JSON values. `JSON.parse(JSON.stringify(x))` is the identity
on JSON-representable values, so the deep copy is value-preserving and the
embedding keeps the value. The `rich_text` step is modelled exactly,
including the `TypeError` that `.map` raises when `rich_text` is truthy but
not an array, and the element spread `{...rt}` (which collects a value's
own enumerable properties: the fields of an object, the index-keyed
elements of an array or string, nothing for primitives). -/

/-- JSON values. Objects are ordered field lists (JS objects have unique
keys and preserve insertion order). -/
inductive Json where
  | null
  | bool (b : Bool)
  | num (n : Int)
  | str (s : String)
  | arr (elems : List Json)
  | obj (fields : List (String × Json))

/-- JavaScript truthiness of a JSON value (`null`, `false`, `0`, and `""`
are falsy; every object and array is truthy). -/
def jsTruthy : Json → Bool
  | .null => false
  | .bool b => b
  | .num n => n != 0
  | .str s => s != ""
  | .arr _ => true
  | .obj _ => true

/-- Property access `p.k` on a JSON value: defined only on objects, first
matching field. -/
def getField : Json → String → Option Json
  | .obj fields, k => (fields.find? (fun kv => kv.1 == k)).map (fun kv => kv.2)
  | _, _ => none

/-- Assignment `p.k = v` on a field list: update the first occurrence of
the key (JS objects hold each key once), append when absent. -/
def setFieldList (k : String) (v : Json) : List (String × Json) → List (String × Json)
  | [] => [(k, v)]
  | kv :: rest => if kv.1 == k then (k, v) :: rest else kv :: setFieldList k v rest

/-- Assignment `p.k = v` on a JSON value (no effect on non-objects). -/
def setField (p : Json) (k : String) (v : Json) : Json :=
  match p with
  | .obj fields => .obj (setFieldList k v fields)
  | j => j

/-- A value's own enumerable properties, as collected by object spread:
the fields of an object, index-keyed elements for arrays and strings,
nothing for primitives. -/
def enumProps : Json → List (String × Json)
  | .obj fields => fields
  | .arr elems => elems.enum.map (fun p => (toString p.1, p.2))
  | .str s => s.toList.enum.map (fun p => (toString p.1, Json.str (String.mk [p.2])))
  | _ => []

/-- The object spread `({ ...rt })` applied to each `rich_text` element:
builds a fresh object from the value's own enumerable properties (the
identity, as a value, on plain objects). -/
def spreadCopy (j : Json) : Json := .obj (enumProps j)

/-- Whether every element of a list of JSON values is an object. -/
def isObjList (l : List Json) : Bool :=
  l.all (fun x => match x with | .obj _ => true | _ => false)

/-- A block as fetched from the remote API: the type discriminator, the
type-keyed payload `b[type]` (absent when the block object has no such
key), the `has_children` flag, and representative server-managed fields
(`id`, `created_time`) that sanitization must strip. -/
structure Block where
  id : String
  created_time : String
  ty : String
  payload : Option Json
  has_children : Bool

/-- A sanitized block: only the type discriminator, the payload (when the
source payload was present and truthy), and the `has_children` marker
survive. -/
structure SBlock where
  ty : String
  payload : Option Json
  has_children : Bool

/-- The statement `base[type].rich_text = base[type].rich_text.map(rt => ({...rt}))`
once `rich_text` is known truthy: `.map` exists only on arrays, so any other
value raises a `TypeError` that aborts `sanitizeBlocks`. -/
def copyArr (b : Block) (p : Json) : Json → Except String SBlock
  | .arr l =>
    .ok ⟨b.ty, some (setField p "rich_text" (.arr (l.map spreadCopy))), b.has_children⟩
  | _ => .error "TypeError: rich_text.map is not a function"

/-- The guard `if (base[type]?.rich_text)` applied to the looked-up
`rich_text` value: a missing or falsy `rich_text` leaves the copied payload
untouched, a truthy one is re-mapped by `copyArr`. -/
def richTextApply (b : Block) (p : Json) : Option Json → Except String SBlock
  | some v =>
    if jsTruthy v then copyArr b p v
    else .ok ⟨b.ty, some p, b.has_children⟩
  | none => .ok ⟨b.ty, some p, b.has_children⟩

/-- The `.map` body of `sanitizeBlocks` for a single block: keep only the
type tag, the (deep-copied) payload when `b[type]` is present and truthy,
and the `has_children` marker; then run the `rich_text` re-mapping step,
which can throw. -/
def sanitizeBlock (b : Block) : Except String SBlock :=
  match b.payload with
  | none => .ok ⟨b.ty, none, b.has_children⟩
  | some p =>
    if jsTruthy p then richTextApply b p (getField p "rich_text")
    else .ok ⟨b.ty, none, b.has_children⟩

/-- Function `sanitizeBlocks`: map `sanitizeBlock` over the list (a JS exception in
the mapper aborts the whole call), then `.filter(Boolean)` — which keeps
everything, since every produced element is an object and objects are
truthy. -/
def sanitizeBlocks (bs : List Block) : Except String (List SBlock) := do
  let out ← bs.mapM sanitizeBlock
  pure (out.filter (fun _ => true))

/-- The payload a sanitized block retains: the source payload when present
and truthy, nothing otherwise (`if (b[type])`). -/
def truthyPayload : Option Json → Option Json
  | some p => if jsTruthy p then some p else none
  | none => none

/-- Whether a JSON value is an array of objects (the shape actual rich
text content has). -/
def isArrOfObj : Json → Bool
  | .arr l => isObjList l
  | _ => false

/-- Whether a looked-up `rich_text` value is harmless to sanitization:
absent, falsy, or an array of objects. -/
def richTextOkAt : Option Json → Bool
  | some v => !jsTruthy v || isArrOfObj v
  | none => true

/-- A block on which sanitization is well-behaved: if its payload is
present and truthy and carries a truthy `rich_text` field, that field is an
array of objects (the shape actual rich text has). -/
def wfBlock (b : Block) : Bool :=
  match b.payload with
  | none => true
  | some p => if jsTruthy p then richTextOkAt (getField p "rich_text") else true

/-! ## Batching and the recursive tree replicator: `cloneBlocksRecursive`
(src/index.js lines 118-141)

```js
async function cloneBlocksRecursive(sourceBlockId, targetParent, targetType = 'block_id') {
  const blocks = await getAllBlocks(sourceBlockId);
  const sanitized = sanitizeBlocks(blocks);
  const created = [];
  for (let i = 0; i < sanitized.length; i += 50) {
    const chunk = sanitized.slice(i, i + 50);
    const resp = await withRetry(() => ensureClient().blocks.children.append({
      [targetType]: targetParent, children: chunk }));
    created.push(...resp.results);
  }
  await Promise.all(
    created.map((newBlock, idx) => limit(async () => {
      const src = blocks[idx];
      if (src?.has_children) {
        await cloneBlocksRecursive(src.id, newBlock.id, 'block_id');
      }
    }))
  );
}
```

The source hierarchy is a finite tree; `getAllBlocks(id)` is modelled as
returning the node's children (pagination accumulates all pages into one
list). Remote append calls may fail (a `withRetry` call surfacing a fatal
or retry-exhausted error), decided by an oracle `appendOk`; the log of
successful append calls models the nodes created at the destination (the
remote answers a creation per submitted child, so `created[idx]` pairs with
`blocks[idx]`; created ids are modelled by the injective renaming
`destId`). The `limit`-mediated sibling subtree tasks are evaluated in
submission order — one schedule of the single-threaded event loop; every
submitted task runs to settlement (`Promise.all` does not cancel), and the
aggregate rejects when any subtree rejected, keeping the first error. -/

/-- The chunking loop `for (let i = 0; i < n; i += 50) slice(i, i + 50)`.
The fuel argument bounds the number of iterations (each iteration consumes
at least one element), making the recursion structural. -/
def chunk50Go {α : Type} : Nat → List α → List (List α)
  | 0, _ => []
  | _, [] => []
  | fuel + 1, x :: xs => ((x :: xs).take 50) :: chunk50Go fuel ((x :: xs).drop 50)

/-- Split a list into successive chunks of at most 50 elements. -/
def chunk50 {α : Type} (l : List α) : List (List α) := chunk50Go l.length l

/-- One `blocks.children.append` call: the destination parent and the chunk
of sanitized children submitted. -/
structure AppendCall where
  parent : String
  chunk : List SBlock

/-- The remote sink: which append calls succeed (`false` models a fatal or
retry-exhausted failure surfaced by `withRetry`). -/
structure RemoteEnv where
  appendOk : String → List SBlock → Bool

/-- The environment in which every remote append succeeds. -/
def allOkEnv : RemoteEnv := ⟨fun _ _ => true⟩

/-- A source tree node: its id, its type discriminator and payload, and its
children (`has_children` holds exactly when the list is nonempty). -/
inductive BTree where
  | node (id : String) (ty : String) (payload : Option Json) (children : List BTree)

/-- The id of a tree node. -/
def BTree.id : BTree → String
  | .node i _ _ _ => i

/-- The children of a tree node. -/
def BTree.children : BTree → List BTree
  | .node _ _ _ c => c

/-- The block record that listing a node's parent yields for this node. -/
def blockOf (t : BTree) : Block :=
  match t with
  | .node i ty p cs =>
    { id := i, created_time := "", ty := ty, payload := p, has_children := !cs.isEmpty }

/-- The id the destination assigns to the copy of a source node. -/
def destId (srcId : String) : String := "copy-" ++ srcId

/-- The sequential batch-append loop of `cloneBlocksRecursive`: submit each
chunk in order, awaiting each call; a failure throws out of the loop, so
later chunks are not attempted, while already-created chunks remain. The
returned list logs the successful calls in submission order. -/
def appendChunks (env : RemoteEnv) (dst : String) :
    List (List SBlock) → Except String Unit × List AppendCall
  | [] => (.ok (), [])
  | ch :: rest =>
    if env.appendOk dst ch then
      let r := appendChunks env dst rest
      (r.1, ⟨dst, ch⟩ :: r.2)
    else (.error "append failed", [])

/-- The `Promise.all` aggregation over the settled subtree tasks: reject with
the first rejection, resolve when all resolved. -/
def combineResults : List (Except String Unit) → Except String Unit
  | [] => .ok ()
  | r :: rest =>
    match r with
    | .error e => .error e
    | .ok _ => combineResults rest

/-- Function `cloneBlocksRecursive(sourceBlockId, targetParent)`, for the subtree
rooted at `t` replicated under destination parent `dst`: list and sanitize
the children, append them in chunks of 50 (aborting the level on the first
failed call), then — only if every chunk of this level succeeded — run the
recursive subtree task for every child that has children, and aggregate.
Returns the aggregated settlement and the log of successful append calls
(the nodes created at the destination, which no code path ever deletes). -/
def cloneBlocksRecursive (env : RemoteEnv) (t : BTree) (dst : String) :
    Except String Unit × List AppendCall :=
  match t with
  | .node _ _ _ cs =>
    match sanitizeBlocks (cs.map blockOf) with
    | .error e => (.error e, [])
    | .ok sanitized =>
      let phase1 := appendChunks env dst (chunk50 sanitized)
      match phase1.1 with
      | .error e => (.error e, phase1.2)
      | .ok _ =>
        let results := cs.attach.map
          (fun c =>
            if c.1.children.isEmpty then ((.ok () : Except String Unit), ([] : List AppendCall))
            else cloneBlocksRecursive env c.1 (destId c.1.id))
        (combineResults (results.map (fun r => r.1)),
         phase1.2 ++ (results.map (fun r => r.2)).flatten)
termination_by t
decreasing_by
  have h := List.sizeOf_lt_of_mem c.2
  simp only [BTree.node.sizeOf_spec]
  omega

/-- The append calls a full, failure-free replication of `t` under `dst`
performs, in order: the ideal call log, independent of the environment. -/
def fullCalls (t : BTree) (dst : String) : List AppendCall :=
  match t with
  | .node _ _ _ cs =>
    match sanitizeBlocks (cs.map blockOf) with
    | .error _ => []
    | .ok sanitized =>
      (chunk50 sanitized).map (fun ch => ⟨dst, ch⟩)
        ++ (cs.attach.map
              (fun c => if c.1.children.isEmpty then [] else fullCalls c.1 (destId c.1.id))).flatten
termination_by t
decreasing_by
  have h := List.sizeOf_lt_of_mem c.2
  simp only [BTree.node.sizeOf_spec]
  omega

/-- Every node of the tree sanitizes without a `TypeError` (true of every
tree whose rich_text payloads are arrays, as the remote API delivers). -/
def saneT (t : BTree) : Bool :=
  match t with
  | .node _ _ _ cs =>
    (match sanitizeBlocks (cs.map blockOf) with
     | .ok _ => true
     | .error _ => false)
      && cs.attach.all (fun c => saneT c.1)
termination_by t
decreasing_by
  have h := List.sizeOf_lt_of_mem c.2
  simp only [BTree.node.sizeOf_spec]
  omega

/-- A childless source node with no payload. -/
def mkLeaf (i : String) : BTree := .node i "paragraph" none []

/-! ## HMAC action links: `buildActionUrl` (src/index.js lines 465-479) and
`verifySignature` (backend templates)

```js
function buildActionUrl(baseUrl, action, params, secret) {
  const ts = Date.now().toString();
  const nonce = crypto.randomUUID();
  const ordered = ['taskId', 'action', 'ts', 'nonce', 'tasksDbId', 'calendarDbId']
    .map(k => params[k] || (k === 'action' ? action : ''));
  const sig = secret ? hmacSign(secret, ordered.join('|')) : undefined;
  const sp = new URLSearchParams({ ...params, action, ts, nonce });
  if (sig) sp.set('sig', sig);
  const url = `${baseUrl.replace(/\/$/, '')}/a/${action}?${sp.toString()}`;
  return url;
}
```

Every call site passes `params = { taskId, tasksDbId, calendarDbId }`
(src/index.js lines 610-612), so `params.action`, `params.ts` and
`params.nonce` are `undefined`: the `action` position falls back to the
`action` argument and the `ts` and `nonce` positions become `''`. The
nondeterministic environment reads (`Date.now()`, `crypto.randomUUID()`)
are parameters of the embedding, as is the HMAC-SHA256 function itself
(both sides call the same `hmacSign(secret, payload)`; only the payloads
they feed it matter here). The produced URL is modelled by its query
parameters, which `URLSearchParams` transports faithfully; an omitted `sig`
(falsy `secret`) is the empty string, which the verifier's `!sig` guard
rejects just as it rejects a missing parameter. -/

/-- String coalescing `x || d` (the empty string is the only falsy string). -/
def jsOrEmpty (s d : String) : String := if s == "" then d else s

/-- The payload `ordered.join('|')` that `buildActionUrl` signs. The `ts`
and `nonce` positions are empty because `params` holds neither key. -/
def builderPayload (action taskId tasksDbId calendarDbId : String) : String :=
  String.intercalate "|"
    [jsOrEmpty taskId "", action, "", "", jsOrEmpty tasksDbId "", jsOrEmpty calendarDbId ""]

/-- The query parameters of a generated action URL. -/
structure ActionQuery where
  taskId : String
  tasksDbId : String
  calendarDbId : String
  action : String
  ts : String
  nonce : String
  sig : String
deriving DecidableEq, Repr

/-- Function `buildActionUrl`, returning the query parameters of the produced URL.
`hmac` is HMAC-SHA256, `ts` and `nonce` the values the environment
supplies for `Date.now().toString()` and `crypto.randomUUID()`. -/
def buildActionUrl (hmac : String → String → String)
    (baseUrl action taskId tasksDbId calendarDbId secret ts nonce : String) : ActionQuery :=
  let _ := baseUrl
  let sig :=
    if secret == "" then ""
    else hmac secret (builderPayload action taskId tasksDbId calendarDbId)
  { taskId := taskId, tasksDbId := tasksDbId, calendarDbId := calendarDbId,
    action := action, ts := ts, nonce := nonce, sig := sig }

/-- The payload
`[taskId, action, ts, nonce, tasksDbId || '', calendarDbId || ''].join('|')`
that both backend templates' `verifySignature` recompute from the request's
own query parameters (src/unnamed/part_000 lines 13-26 and
src/backend-template/vercel/api/index.js lines 16-22). -/
def verifierPayload (q : ActionQuery) : String :=
  String.intercalate "|"
    [q.taskId, q.action, q.ts, q.nonce, jsOrEmpty q.tasksDbId "", jsOrEmpty q.calendarDbId ""]

/-- Function `verifySignature(secret, url)`: reject when `sig`, `action`, `taskId`,
`ts` or `nonce` is missing/falsy, otherwise compare the recomputed HMAC
with the transmitted `sig`. -/
def verifySignature (hmac : String → String → String) (secret : String) (q : ActionQuery) :
    Bool :=
  if q.sig == "" || q.action == "" || q.taskId == "" || q.ts == "" || q.nonce == "" then false
  else hmac secret (verifierPayload q) == q.sig

end NotionImporter

namespace NotionImporter

/-! Helper lemmas for `withRetryGo`. -/

theorem withRetryGo_ok {α : Type} {op : Nat → Except NotionError α} {a w : Nat} {v : α}
    (h : op a = .ok v) : withRetryGo op a w = ⟨.ok v, 1, []⟩ := by
  rw [withRetryGo, h]

theorem withRetryGo_throw {α : Type} {op : Nat → Except NotionError α} {a w : Nat}
    {e : NotionError} (h : op a = .error e)
    (hf : 5 ≤ a + 1 ∨ isFatalStatus e.status = true) :
    withRetryGo op a w = ⟨.error e, 1, []⟩ := by
  rw [withRetryGo, h]
  simp only [dif_pos hf]

theorem withRetryGo_retry {α : Type} {op : Nat → Except NotionError α} {a w : Nat}
    {e : NotionError} (h : op a = .error e)
    (hf : ¬(5 ≤ a + 1 ∨ isFatalStatus e.status = true)) :
    withRetryGo op a w =
      ⟨(withRetryGo op (a + 1) (min (w * 2) 5000)).result,
       (withRetryGo op (a + 1) (min (w * 2) 5000)).calls + 1,
       w :: (withRetryGo op (a + 1) (min (w * 2) 5000)).waits⟩ := by
  rw [withRetryGo, h]
  simp only [dif_neg hf]

theorem withRetryGo_calls_pos {α : Type} (op : Nat → Except NotionError α) (a w : Nat) :
    1 ≤ (withRetryGo op a w).calls := by
  rcases hop : op a with e | v
  · by_cases hf : 5 ≤ a + 1 ∨ isFatalStatus e.status = true
    · rw [withRetryGo_throw hop hf]
    · rw [withRetryGo_retry hop hf]
      simp
  · rw [withRetryGo_ok hop]

theorem withRetryGo_succeeds {α : Type} (op : Nat → Except NotionError α) (v : α) :
    ∀ K a w : Nat, a + K ≤ 4 →
      (∀ i, i < K → ∃ e, op (a + i) = .error e ∧ isFatalStatus e.status = false) →
      op (a + K) = .ok v →
      (withRetryGo op a w).result = .ok v ∧ (withRetryGo op a w).calls = K + 1 := by
  intro K
  induction K with
  | zero =>
    intro a w _ _ hs
    rw [withRetryGo_ok (by simpa using hs)]
    exact ⟨rfl, rfl⟩
  | succ K ih =>
    intro a w hK hfail hs
    obtain ⟨e, he, hef⟩ := hfail 0 (by omega)
    have he0 : op a = .error e := by simpa using he
    have hnf : ¬(5 ≤ a + 1 ∨ isFatalStatus e.status = true) := by
      rintro (h | h)
      · omega
      · rw [hef] at h
        exact Bool.false_ne_true h
    rw [withRetryGo_retry he0 hnf]
    have hfail' : ∀ i, i < K → ∃ e, op (a + 1 + i) = .error e ∧ isFatalStatus e.status = false := by
      intro i hi
      obtain ⟨e', he', hef'⟩ := hfail (i + 1) (by omega)
      refine ⟨e', ?_, hef'⟩
      have : a + (i + 1) = a + 1 + i := by omega
      rwa [this] at he'
    have hs' : op (a + 1 + K) = .ok v := by
      have : a + (K + 1) = a + 1 + K := by omega
      rwa [this] at hs
    obtain ⟨hres, hcalls⟩ := ih (a + 1) (min (w * 2) 5000) (by omega) hfail' hs'
    exact ⟨hres, by rw [hcalls]⟩

/-- C2: for `withRetry`, a first failure with a non-429 4xx status is fatal:
the executor rethrows that same error after exactly one invocation with no
backoff sleep; a first failure with a 5xx status, status 429, or no status
at all is retryable: the operation is invoked again rather than the error
being surfaced. -/
theorem claim_C2 {α : Type} (op : Nat → Except NotionError α) (e : NotionError)
    (h0 : op 0 = .error e) :
    ((∃ c, e.status = some c ∧ 400 ≤ c ∧ c < 500 ∧ c ≠ 429) →
        withRetry op = ⟨.error e, 1, []⟩) ∧
    ((e.status = none ∨ ∃ c, e.status = some c ∧ (500 ≤ c ∨ c = 429)) →
        2 ≤ (withRetry op).calls) := by
  constructor
  · rintro ⟨c, hc, h4, h5, h9⟩
    have hf : isFatalStatus e.status = true := by
      rw [hc]
      simp only [isFatalStatus, Bool.and_eq_true, bne_iff_ne, ne_eq, decide_eq_true_eq]
      refine ⟨⟨by omega, h5⟩, by omega⟩
    exact withRetryGo_throw h0 (Or.inr hf)
  · rintro hr
    have hf : ¬(5 ≤ 0 + 1 ∨ isFatalStatus e.status = true) := by
      rintro (h | h)
      · omega
      · rcases hr with hn | ⟨c, hc, hcase⟩
        · rw [hn] at h
          simp [isFatalStatus] at h
        · rw [hc] at h
          simp only [isFatalStatus, Bool.and_eq_true, bne_iff_ne, ne_eq,
            decide_eq_true_eq] at h
          omega
    have hrw : withRetry op =
        ⟨(withRetryGo op 1 (min (500 * 2) 5000)).result,
         (withRetryGo op 1 (min (500 * 2) 5000)).calls + 1,
         500 :: (withRetryGo op 1 (min (500 * 2) 5000)).waits⟩ :=
      withRetryGo_retry h0 hf
    rw [hrw]
    have := withRetryGo_calls_pos op 1 (min (500 * 2) 5000)
    simpa using this

/-- Witness for C2: a 404 failure is surfaced unchanged after one call and
no sleep; a status-less failure triggers a retry (a second invocation). -/
theorem claim_C2_witness :
    withRetry (fun _ => (.error ⟨some 404⟩ : Except NotionError Nat)) =
      ⟨.error ⟨some 404⟩, 1, []⟩ ∧
    2 ≤ (withRetry (fun _ => (.error ⟨none⟩ : Except NotionError Nat))).calls :=
  ⟨(claim_C2 _ _ rfl).1 ⟨404, rfl, by decide, by decide, by decide⟩,
   (claim_C2 _ _ rfl).2 (Or.inl rfl)⟩

/-- C3: when every failure is retryable, `withRetry` invokes the operation
exactly 5 times, surfaces the last underlying error, and the backoff delays
slept are 500, 1000, 2000, 4000 ms: starting at 500, doubling after each
retryable failure with a 5000 cap, monotonically non-decreasing, and never
exceeding 5000. -/
theorem claim_C3 {α : Type} (op : Nat → Except NotionError α) (e : Nat → NotionError)
    (herr : ∀ n, op n = .error (e n))
    (hretry : ∀ n, isFatalStatus (e n).status = false) :
    withRetry op = ⟨.error (e 4), 5, [500, 1000, 2000, 4000]⟩ ∧
    List.Chain' (· ≤ ·) (withRetry op).waits ∧
    List.Chain' (fun a b => b = min (2 * a) 5000) (withRetry op).waits ∧
    ∀ w ∈ (withRetry op).waits, 500 ≤ w ∧ w ≤ 5000 := by
  have hnf : ∀ a, a + 1 < 5 → ¬(5 ≤ a + 1 ∨ isFatalStatus (e a).status = true) := by
    intro a ha
    rintro (h | h)
    · omega
    · rw [hretry a] at h
      exact Bool.false_ne_true h
  have h4 : withRetryGo op 4 5000 = ⟨.error (e 4), 1, []⟩ :=
    withRetryGo_throw (herr 4) (Or.inl (by omega))
  have h3 : withRetryGo op 3 4000 = ⟨.error (e 4), 2, [4000]⟩ := by
    rw [withRetryGo_retry (herr 3) (hnf 3 (by omega))]
    norm_num [h4]
  have h2 : withRetryGo op 2 2000 = ⟨.error (e 4), 3, [2000, 4000]⟩ := by
    rw [withRetryGo_retry (herr 2) (hnf 2 (by omega))]
    norm_num [h3]
  have h1 : withRetryGo op 1 1000 = ⟨.error (e 4), 4, [1000, 2000, 4000]⟩ := by
    rw [withRetryGo_retry (herr 1) (hnf 1 (by omega))]
    norm_num [h2]
  have h0 : withRetry op = ⟨.error (e 4), 5, [500, 1000, 2000, 4000]⟩ := by
    show withRetryGo op 0 500 = _
    rw [withRetryGo_retry (herr 0) (hnf 0 (by omega))]
    norm_num [h1]
  have hw : (withRetry op).waits = [500, 1000, 2000, 4000] := by rw [h0]
  refine ⟨h0, ?_, ?_, ?_⟩ <;> rw [hw] <;> norm_num [List.chain'_cons]

/-- Witness for C3: an operation failing every time with status 503. -/
theorem claim_C3_witness :
    withRetry (fun _ => (.error ⟨some 503⟩ : Except NotionError Nat)) =
      ⟨.error ⟨some 503⟩, 5, [500, 1000, 2000, 4000]⟩ :=
  (claim_C3 _ (fun _ => ⟨some 503⟩) (fun _ => rfl) (fun _ => rfl)).1

/-- C4: an operation that fails `K ≤ 4` times with retryable errors and
then succeeds makes `withRetry` resolve with the successful result
unchanged after exactly `K + 1` invocations. -/
theorem claim_C4 {α : Type} (op : Nat → Except NotionError α) (v : α) (K : Nat)
    (hK : K ≤ 4)
    (hfail : ∀ i, i < K → ∃ e, op i = .error e ∧ isFatalStatus e.status = false)
    (hs : op K = .ok v) :
    (withRetry op).result = .ok v ∧ (withRetry op).calls = K + 1 :=
  withRetryGo_succeeds op v K 0 500 (by omega) (by simpa using hfail) (by simpa using hs)

/-- Witness for C4: two status-less failures then success with value 7;
three invocations in total. -/
theorem claim_C4_witness :
    (withRetry (fun n => if n < 2 then (.error ⟨none⟩ : Except NotionError Nat)
                         else .ok 7)).result = .ok 7 ∧
    (withRetry (fun n => if n < 2 then (.error ⟨none⟩ : Except NotionError Nat)
                         else .ok 7)).calls = 2 + 1 :=
  claim_C4 _ 7 2 (by decide)
    (fun i hi => ⟨⟨none⟩, by interval_cases i <;> exact ⟨rfl, rfl⟩⟩) rfl

/-! Limiter lemmas: invariants over all event-loop interleavings, and the
behaviour of the deterministic drain schedule. -/

theorem limReach_running_le {N : Nat} {outcome : Nat → Except String Nat} {s : LimState}
    (h : LimReach N outcome s) : s.running.length ≤ N := by
  induction h with
  | init => simp [limInit]
  | step hr hstep ih =>
    cases hstep with
    | submit t s => simpa using ih
    | promote t q s hcap hq => simpa using hcap
    | finish t r₁ r₂ s hr' =>
      rw [hr'] at ih
      simp at ih ⊢
      omega

theorem limReach_fifo {N : Nat} {outcome : Nat → Except String Nat} {s : LimState}
    (h : LimReach N outcome s) : s.started ++ s.queue = s.submitted := by
  induction h with
  | init => rfl
  | step hr hstep ih =>
    cases hstep with
    | submit t s => simp only [← List.append_assoc, ih]
    | promote t q s hcap hq =>
      simp only [List.append_assoc, List.singleton_append, ← hq, ih]
    | finish t r₁ r₂ s hr' => simpa using ih

theorem limReach_settled_outcome {N : Nat} {outcome : Nat → Except String Nat} {s : LimState}
    (h : LimReach N outcome s) : ∀ p ∈ s.settled, p.2 = outcome p.1 := by
  induction h with
  | init => intro p hp; simp [limInit] at hp
  | step hr hstep ih =>
    cases hstep with
    | submit t s => simpa using ih
    | promote t q s hcap hq => simpa using ih
    | finish t r₁ r₂ s hr' =>
      intro p hp
      simp only [List.mem_append, List.mem_singleton] at hp
      rcases hp with hp | hp
      · exact ih p hp
      · rw [hp]

theorem drain_step_promote {N : Nat} {o : Nat → Except String Nat} {s : LimState}
    (h : s.running.length < N ∧ s.queue ≠ []) :
    drain N o s = drain N o (promoteS s) := by
  rw [drain, dif_pos h]

theorem drain_step_finish {N : Nat} {o : Nat → Except String Nat} {s : LimState}
    (h1 : ¬(s.running.length < N ∧ s.queue ≠ [])) (h2 : s.running ≠ []) :
    drain N o s = drain N o (finishS o s) := by
  rw [drain, dif_neg h1, dif_pos h2]

theorem drain_step_done {N : Nat} {o : Nat → Except String Nat} {s : LimState}
    (h1 : ¬(s.running.length < N ∧ s.queue ≠ [])) (h2 : ¬s.running ≠ []) :
    drain N o s = s := by
  rw [drain, dif_neg h1, dif_neg h2]

theorem drain_spec (N : Nat) (o : Nat → Except String Nat) (hN : 1 ≤ N) :
    ∀ fuel s, 2 * s.queue.length + s.running.length ≤ fuel →
      (drain N o s).settled = s.settled ++ (s.running ++ s.queue).map (fun t => (t, o t)) ∧
      (drain N o s).queue = [] ∧ (drain N o s).running = [] := by
  intro fuel
  induction fuel with
  | zero =>
    intro s hm
    have hq : s.queue = [] := List.eq_nil_of_length_eq_zero (by omega)
    have hr : s.running = [] := List.eq_nil_of_length_eq_zero (by omega)
    rw [drain_step_done (by simp [hq]) (by simp [hr])]
    simp [hq, hr]
  | succ fuel ih =>
    intro s hm
    by_cases h1 : s.running.length < N ∧ s.queue ≠ []
    · rcases hqm : s.queue with - | ⟨t, q⟩
      · exact absurd hqm h1.2
      · have hmeas : 2 * (promoteS s).queue.length + (promoteS s).running.length ≤ fuel := by
          simp [promoteS, hqm]
          rw [hqm] at hm
          simp at hm
          omega
        obtain ⟨hs, hq', hr'⟩ := ih (promoteS s) hmeas
        rw [drain_step_promote h1]
        refine ⟨?_, hq', hr'⟩
        rw [hs]
        simp [promoteS, hqm, List.append_assoc]
    · by_cases h2 : s.running ≠ []
      · rcases hrm : s.running with - | ⟨t, r⟩
        · exact absurd hrm h2
        · have hmeas : 2 * (finishS o s).queue.length + (finishS o s).running.length ≤ fuel := by
            simp [finishS, hrm]
            rw [hrm] at hm
            simp at hm
            omega
          obtain ⟨hs, hq', hr'⟩ := ih (finishS o s) hmeas
          rw [drain_step_finish h1 h2]
          refine ⟨?_, hq', hr'⟩
          rw [hs]
          simp [finishS, hrm, List.append_assoc]
      · rw [drain_step_done h1 h2]
        simp only [not_not] at h2
        have hq : s.queue = [] := by
          by_contra hne
          exact h1 ⟨by simp [h2]; omega, hne⟩
        simp [hq, h2]

/-- C1: the limiter never runs more than `N` tasks at once — over every
event-loop interleaving, the active count of a reachable state is at most
`N`, a task being started only behind the `active < concurrency` guard —
and under the fair drain schedule every one of the `M` submitted tasks
settles (exactly once, in order). -/
theorem claim_C1 (N M : Nat) (outcome : Nat → Except String Nat) (hN : 1 ≤ N) :
    (∀ s, LimReach N outcome s → s.running.length ≤ N) ∧
    (drain N outcome (limSubmitted M)).settled.map Prod.fst = List.range M := by
  constructor
  · intro s h
    exact limReach_running_le h
  · obtain ⟨hs, -, -⟩ := drain_spec N outcome hN (2 * M) (limSubmitted M)
      (by simp [limSubmitted])
    rw [hs]
    simp [limSubmitted, Function.comp_def]

/-- Witness for C1 at the configuration this program uses (`createLimit(3)`)
with five submitted tasks: all five settle, in submission order. -/
theorem claim_C1_witness :
    (drain 3 (fun t => Except.ok t) (limSubmitted 5)).settled.map Prod.fst = List.range 5 :=
  (claim_C1 3 5 (fun t => Except.ok t) (by decide)).2

/-- C8: the limiter starts tasks in submission order. In every reachable
state the sequence of started tasks followed by the still-queued tasks is
exactly the submission sequence — equivalently, the started sequence is a
prefix of the submission sequence, so a task submitted earlier starts no
later than one submitted after it, with no reordering of the pending
queue. -/
theorem claim_C8 (N : Nat) (outcome : Nat → Except String Nat) (s : LimState)
    (h : LimReach N outcome s) :
    s.started ++ s.queue = s.submitted ∧
    s.started = s.submitted.take s.started.length := by
  have hfifo := limReach_fifo h
  refine ⟨hfifo, ?_⟩
  rw [← hfifo, List.take_left]

/-- Witness for C8: the state reached by submitting tasks 0 then 1 and
promoting one of them under ceiling 3 — the promoted task is task 0. -/
theorem claim_C8_witness :
    (LimState.mk [1] [0] [0] [] [0, 1]).started ++ (LimState.mk [1] [0] [0] [] [0, 1]).queue
        = (LimState.mk [1] [0] [0] [] [0, 1]).submitted ∧
    (LimState.mk [1] [0] [0] [] [0, 1]).started
        = (LimState.mk [1] [0] [0] [] [0, 1]).submitted.take
            (LimState.mk [1] [0] [0] [] [0, 1]).started.length :=
  claim_C8 3 (fun t => Except.ok t) _
    (LimReach.step
      (LimReach.step
        (LimReach.step LimReach.init (LimiterStep.submit 0 limInit))
        (LimiterStep.submit 1 (LimState.mk [0] [] [] [] [0])))
      (LimiterStep.promote 0 [1] (LimState.mk [0, 1] [] [] [] [0, 1]) (by decide) rfl))

/-- C9: a task's settlement is delivered unchanged — in every reachable
state each recorded settlement equals the task's own outcome, rejections
included — and the limiter releases its slot on every exit path: even when
outcomes are rejections, the fair drain schedule still settles all `M`
submitted tasks, each with exactly its own outcome. -/
theorem claim_C9 (N M : Nat) (outcome : Nat → Except String Nat) (hN : 1 ≤ N) :
    (∀ s, LimReach N outcome s → ∀ p ∈ s.settled, p.2 = outcome p.1) ∧
    (drain N outcome (limSubmitted M)).settled
        = (List.range M).map (fun t => (t, outcome t)) := by
  constructor
  · intro s h
    exact limReach_settled_outcome h
  · obtain ⟨hs, -, -⟩ := drain_spec N outcome hN (2 * M) (limSubmitted M)
      (by simp [limSubmitted])
    rw [hs]
    simp [limSubmitted]

/-- Witness for C9: with task 0 rejecting and task 1 resolving, both tasks
still settle under ceiling 3, each with its own outcome — the failure of
task 0 neither changes its delivered error nor blocks task 1. -/
theorem claim_C9_witness :
    (drain 3 (fun t => if t = 0 then Except.error "boom" else Except.ok t)
        (limSubmitted 2)).settled
      = (List.range 2).map
          (fun t => (t, if t = 0 then Except.error "boom" else Except.ok t)) :=
  (claim_C9 3 2 (fun t => if t = 0 then Except.error "boom" else Except.ok t)
    (by decide)).2

/-! Lemmas on the chunking loop, the sequential batch-append loop, and the
`Promise.all` aggregation. -/

theorem chunk50Go_length {α : Type} :
    ∀ (fuel : Nat) (l : List α), l.length ≤ fuel →
      (chunk50Go fuel l).length = (l.length + 49) / 50 := by
  intro fuel
  induction fuel with
  | zero =>
    intro l hl
    have hnil : l = [] := List.eq_nil_of_length_eq_zero (by omega)
    subst hnil
    simp [chunk50Go]
  | succ fuel ih =>
    intro l hl
    match l with
    | [] => simp [chunk50Go]
    | x :: xs =>
      rw [chunk50Go, List.length_cons,
        ih _ (by simp only [List.length_drop]; simp at hl ⊢; omega)]
      simp only [List.length_drop, List.length_cons]
      omega

theorem chunk50Go_flatten {α : Type} :
    ∀ (fuel : Nat) (l : List α), l.length ≤ fuel → (chunk50Go fuel l).flatten = l := by
  intro fuel
  induction fuel with
  | zero =>
    intro l hl
    have hnil : l = [] := List.eq_nil_of_length_eq_zero (by omega)
    subst hnil
    simp [chunk50Go]
  | succ fuel ih =>
    intro l hl
    match l with
    | [] => simp [chunk50Go]
    | x :: xs =>
      rw [chunk50Go, List.flatten_cons,
        ih _ (by simp only [List.length_drop]; simp at hl ⊢; omega)]
      exact List.take_append_drop 50 (x :: xs)

theorem chunk50Go_mem_le {α : Type} :
    ∀ (fuel : Nat) (l : List α), ∀ c ∈ chunk50Go fuel l, c.length ≤ 50 := by
  intro fuel
  induction fuel with
  | zero =>
    intro l c hc
    simp [chunk50Go] at hc
  | succ fuel ih =>
    intro l c hc
    match l with
    | [] => simp [chunk50Go] at hc
    | x :: xs =>
      rw [chunk50Go] at hc
      rcases List.mem_cons.mp hc with hc | hc
      · subst hc
        simp
      · exact ih _ c hc

theorem chunk50_length {α : Type} (l : List α) :
    (chunk50 l).length = (l.length + 49) / 50 :=
  chunk50Go_length l.length l le_rfl

theorem chunk50_flatten {α : Type} (l : List α) : (chunk50 l).flatten = l :=
  chunk50Go_flatten l.length l le_rfl

theorem chunk50_mem_le {α : Type} (l : List α) : ∀ c ∈ chunk50 l, c.length ≤ 50 :=
  chunk50Go_mem_le l.length l

theorem appendChunks_ok_iff (env : RemoteEnv) (dst : String) :
    ∀ chunks : List (List SBlock),
      (appendChunks env dst chunks).1 = .ok () ↔
        ∀ ch ∈ chunks, env.appendOk dst ch = true := by
  intro chunks
  induction chunks with
  | nil => simp [appendChunks]
  | cons ch rest ih =>
    by_cases h : env.appendOk dst ch = true
    · rw [appendChunks, if_pos h]
      simpa [h] using ih
    · rw [appendChunks, if_neg h]
      simp [h]

theorem appendChunks_log_sublist (env : RemoteEnv) (dst : String) :
    ∀ chunks : List (List SBlock),
      (appendChunks env dst chunks).2.Sublist
        (chunks.map (fun ch => AppendCall.mk dst ch)) := by
  intro chunks
  induction chunks with
  | nil => simp [appendChunks]
  | cons ch rest ih =>
    by_cases h : env.appendOk dst ch = true
    · rw [appendChunks, if_pos h]
      exact List.Sublist.cons₂ _ ih
    · rw [appendChunks, if_neg h]
      simp

theorem appendChunks_log_ok (env : RemoteEnv) (dst : String) :
    ∀ chunks : List (List SBlock),
      ∀ c ∈ (appendChunks env dst chunks).2, env.appendOk c.parent c.chunk = true := by
  intro chunks
  induction chunks with
  | nil => simp [appendChunks]
  | cons ch rest ih =>
    by_cases h : env.appendOk dst ch = true
    · rw [appendChunks, if_pos h]
      intro c hc
      rcases List.mem_cons.mp hc with hc | hc
      · subst hc
        exact h
      · exact ih c hc
    · rw [appendChunks, if_neg h]
      simp

theorem appendChunks_log_of_ok (env : RemoteEnv) (dst : String) :
    ∀ chunks : List (List SBlock),
      (appendChunks env dst chunks).1 = .ok () →
        (appendChunks env dst chunks).2 = chunks.map (fun ch => AppendCall.mk dst ch) := by
  intro chunks
  induction chunks with
  | nil => simp [appendChunks]
  | cons ch rest ih =>
    by_cases h : env.appendOk dst ch = true
    · rw [appendChunks, if_pos h]
      intro hok
      simp only [List.map_cons, List.cons.injEq, true_and]
      exact ih hok
    · rw [appendChunks, if_neg h]
      intro hok
      exact absurd hok (by simp)

theorem combineResults_ok_iff :
    ∀ rs : List (Except String Unit),
      combineResults rs = .ok () ↔ ∀ r ∈ rs, r = .ok () := by
  intro rs
  induction rs with
  | nil => simp [combineResults]
  | cons r rest ih =>
    rcases r with e | u
    · simp [combineResults]
    · rcases u
      simpa [combineResults] using ih

/-! Equation lemmas for the recursive replicator, with the `attach`
bookkeeping used for termination rewritten away. -/

theorem cloneBlocksRecursive_sanitize_error (env : RemoteEnv) (i ty : String)
    (p : Option Json) (cs : List BTree) (dst : String) (e : String)
    (h : sanitizeBlocks (cs.map blockOf) = .error e) :
    cloneBlocksRecursive env (.node i ty p cs) dst = (.error e, []) := by
  rw [cloneBlocksRecursive, h]

theorem cloneBlocksRecursive_sanitize_ok (env : RemoteEnv) (i ty : String)
    (p : Option Json) (cs : List BTree) (dst : String) (sanitized : List SBlock)
    (h : sanitizeBlocks (cs.map blockOf) = .ok sanitized) :
    cloneBlocksRecursive env (.node i ty p cs) dst =
      (match (appendChunks env dst (chunk50 sanitized)).1 with
       | .error e => ((.error e : Except String Unit),
           (appendChunks env dst (chunk50 sanitized)).2)
       | .ok _ =>
         (combineResults
            ((cs.map fun c =>
                if c.children.isEmpty then ((.ok () : Except String Unit), ([] : List AppendCall))
                else cloneBlocksRecursive env c (destId c.id)).map fun r => r.1),
          (appendChunks env dst (chunk50 sanitized)).2 ++
            ((cs.map fun c =>
                if c.children.isEmpty then ((.ok () : Except String Unit), ([] : List AppendCall))
                else cloneBlocksRecursive env c (destId c.id)).map fun r => r.2).flatten)) := by
  rw [cloneBlocksRecursive, h]
  rw [List.attach_map_val cs
    (fun c => if c.children.isEmpty then ((.ok () : Except String Unit), ([] : List AppendCall))
              else cloneBlocksRecursive env c (destId c.id))]

theorem fullCalls_sanitize_error (i ty : String) (p : Option Json) (cs : List BTree)
    (dst : String) (e : String) (h : sanitizeBlocks (cs.map blockOf) = .error e) :
    fullCalls (.node i ty p cs) dst = [] := by
  rw [fullCalls, h]

theorem fullCalls_sanitize_ok (i ty : String) (p : Option Json) (cs : List BTree)
    (dst : String) (sanitized : List SBlock)
    (h : sanitizeBlocks (cs.map blockOf) = .ok sanitized) :
    fullCalls (.node i ty p cs) dst =
      (chunk50 sanitized).map (fun ch => AppendCall.mk dst ch) ++
        (cs.map fun c => if c.children.isEmpty then [] else fullCalls c (destId c.id)).flatten := by
  rw [fullCalls, h]
  rw [List.attach_map_val cs
    (fun c => if c.children.isEmpty then ([] : List AppendCall) else fullCalls c (destId c.id))]

theorem level_combine (envOk : AppendCall → Bool)
    (g : BTree → Except String Unit × List AppendCall)
    (k : BTree → List AppendCall) :
    ∀ cs : List BTree,
      (∀ c ∈ cs,
        (((g c).1 = .ok ()) ↔ ∀ x ∈ k c, envOk x = true) ∧
        (g c).2.Sublist (k c) ∧
        (∀ x ∈ (g c).2, envOk x = true) ∧
        ((g c).1 = .ok () → (g c).2 = k c)) →
      ((combineResults ((cs.map g).map fun r => r.1) = .ok ()) ↔
          ∀ c ∈ cs, ∀ x ∈ k c, envOk x = true) ∧
      ((cs.map g).map fun r => r.2).flatten.Sublist ((cs.map k).flatten) ∧
      (∀ x ∈ ((cs.map g).map fun r => r.2).flatten, envOk x = true) ∧
      (combineResults ((cs.map g).map fun r => r.1) = .ok () →
          ((cs.map g).map fun r => r.2).flatten = (cs.map k).flatten) := by
  intro cs
  induction cs with
  | nil =>
    intro _
    simp [combineResults]
  | cons c rest ih =>
    intro hP
    obtain ⟨p1, p2, p3, p4⟩ := hP c (List.mem_cons_self c rest)
    obtain ⟨ih1, ih2, ih3, ih4⟩ := ih (fun c' h' => hP c' (List.mem_cons_of_mem _ h'))
    simp only [List.map_cons, List.flatten_cons]
    rcases hgc : (g c).1 with e | u
    · have hcomb : combineResults (Except.error e :: (rest.map g).map (fun r => r.1)) =
          .error e := by
        rw [combineResults]
      constructor
      · rw [hcomb]
        constructor
        · intro h
          exact absurd h (by simp)
        · intro h
          have hok : (g c).1 = .ok () :=
            p1.mpr (fun x hx => h c (List.mem_cons_self c rest) x hx)
          rw [hgc] at hok
          exact absurd hok (by simp)
      refine ⟨List.Sublist.append p2 ih2, ?_, ?_⟩
      · intro x hx
        rcases List.mem_append.mp hx with hx | hx
        · exact p3 x hx
        · exact ih3 x hx
      · intro h
        rw [hcomb] at h
        exact absurd h (by simp)
    · rcases u
      have hgc' : (g c).1 = .ok () := hgc
      have hcomb : combineResults (Except.ok () :: (rest.map g).map (fun r => r.1)) =
          combineResults ((rest.map g).map (fun r => r.1)) := by
        rw [combineResults]
      constructor
      · rw [hcomb, ih1]
        constructor
        · intro h c' hc'
          rcases List.mem_cons.mp hc' with hc' | hc'
          · subst hc'
            exact p1.mp hgc'
          · exact h c' hc'
        · intro h c' hc'
          exact h c' (List.mem_cons_of_mem _ hc')
      refine ⟨List.Sublist.append p2 ih2, ?_, ?_⟩
      · intro x hx
        rcases List.mem_append.mp hx with hx | hx
        · exact p3 x hx
        · exact ih3 x hx
      · intro h
        rw [hcomb] at h
        rw [p4 hgc', ih4 h]

theorem clone_spec :
    ∀ (t : BTree) (env : RemoteEnv) (dst : String), saneT t = true →
      (((cloneBlocksRecursive env t dst).1 = .ok ()) ↔
          ∀ c ∈ fullCalls t dst, env.appendOk c.parent c.chunk = true) ∧
      (cloneBlocksRecursive env t dst).2.Sublist (fullCalls t dst) ∧
      (∀ c ∈ (cloneBlocksRecursive env t dst).2, env.appendOk c.parent c.chunk = true) ∧
      ((cloneBlocksRecursive env t dst).1 = .ok () →
          (cloneBlocksRecursive env t dst).2 = fullCalls t dst) := by
  suffices H : ∀ (n : Nat) (t : BTree), sizeOf t ≤ n → ∀ (env : RemoteEnv) (dst : String),
      saneT t = true →
      (((cloneBlocksRecursive env t dst).1 = .ok ()) ↔
          ∀ c ∈ fullCalls t dst, env.appendOk c.parent c.chunk = true) ∧
      (cloneBlocksRecursive env t dst).2.Sublist (fullCalls t dst) ∧
      (∀ c ∈ (cloneBlocksRecursive env t dst).2, env.appendOk c.parent c.chunk = true) ∧
      ((cloneBlocksRecursive env t dst).1 = .ok () →
          (cloneBlocksRecursive env t dst).2 = fullCalls t dst) by
    intro t env dst hs
    exact H (sizeOf t) t le_rfl env dst hs
  intro n
  induction n with
  | zero =>
    intro t hsize
    rcases t with ⟨i, ty, p, cs⟩
    simp [BTree.node.sizeOf_spec] at hsize
  | succ n ih =>
    intro t hsize env dst hsane
    rcases t with ⟨i, ty, p, cs⟩
    have ihc : ∀ c ∈ cs, ∀ (env : RemoteEnv) (dst : String), saneT c = true →
        (((cloneBlocksRecursive env c dst).1 = .ok ()) ↔
            ∀ x ∈ fullCalls c dst, env.appendOk x.parent x.chunk = true) ∧
        (cloneBlocksRecursive env c dst).2.Sublist (fullCalls c dst) ∧
        (∀ x ∈ (cloneBlocksRecursive env c dst).2, env.appendOk x.parent x.chunk = true) ∧
        ((cloneBlocksRecursive env c dst).1 = .ok () →
            (cloneBlocksRecursive env c dst).2 = fullCalls c dst) := by
      intro c hc
      apply ih
      have := List.sizeOf_lt_of_mem hc
      simp only [BTree.node.sizeOf_spec] at hsize
      omega
    rw [saneT, Bool.and_eq_true] at hsane
    obtain ⟨hsan0, hall⟩ := hsane
    rcases hsanE : sanitizeBlocks (cs.map blockOf) with e | sanitized
    · rw [hsanE] at hsan0
      simp at hsan0
    have hsaneC : ∀ c ∈ cs, saneT c = true := by
      intro c hc
      simpa using List.all_eq_true.mp hall ⟨c, hc⟩ (List.mem_attach _ _)
    -- per-child properties feeding the level aggregation
    have hP : ∀ c ∈ cs,
        (((if c.children.isEmpty then ((.ok () : Except String Unit), ([] : List AppendCall))
           else cloneBlocksRecursive env c (destId c.id)).1 = .ok ()) ↔
            ∀ x ∈ (if c.children.isEmpty then ([] : List AppendCall)
                   else fullCalls c (destId c.id)),
              env.appendOk x.parent x.chunk = true) ∧
        (if c.children.isEmpty then ((.ok () : Except String Unit), ([] : List AppendCall))
         else cloneBlocksRecursive env c (destId c.id)).2.Sublist
          (if c.children.isEmpty then ([] : List AppendCall)
           else fullCalls c (destId c.id)) ∧
        (∀ x ∈ (if c.children.isEmpty then ((.ok () : Except String Unit), ([] : List AppendCall))
                else cloneBlocksRecursive env c (destId c.id)).2,
          env.appendOk x.parent x.chunk = true) ∧
        ((if c.children.isEmpty then ((.ok () : Except String Unit), ([] : List AppendCall))
          else cloneBlocksRecursive env c (destId c.id)).1 = .ok () →
          (if c.children.isEmpty then ((.ok () : Except String Unit), ([] : List AppendCall))
           else cloneBlocksRecursive env c (destId c.id)).2 =
            (if c.children.isEmpty then ([] : List AppendCall)
             else fullCalls c (destId c.id))) := by
      intro c hc
      by_cases hemp : c.children.isEmpty
      · simp [hemp]
      · simp only [hemp, if_false]
        exact ihc c hc env (destId c.id) (hsaneC c hc)
    have hlevel := level_combine (fun x => env.appendOk x.parent x.chunk)
      (fun c => if c.children.isEmpty then ((.ok () : Except String Unit), ([] : List AppendCall))
                else cloneBlocksRecursive env c (destId c.id))
      (fun c => if c.children.isEmpty then ([] : List AppendCall)
                else fullCalls c (destId c.id)) cs hP
    obtain ⟨lv1, lv2, lv3, lv4⟩ := hlevel
    rw [cloneBlocksRecursive_sanitize_ok env i ty p cs dst sanitized hsanE,
      fullCalls_sanitize_ok i ty p cs dst sanitized hsanE]
    rcases hph : (appendChunks env dst (chunk50 sanitized)).1 with e | u
    · -- a batch append of this level failed: the level aborts here
      simp only [hph]
      have hbad : ¬∀ ch ∈ chunk50 sanitized, env.appendOk dst ch = true := by
        intro hok
        rw [(appendChunks_ok_iff env dst (chunk50 sanitized)).mpr hok] at hph
        exact Except.noConfusion hph
      refine ⟨?_, ?_, ?_, ?_⟩
      · constructor
        · intro h
          exact absurd h (by simp)
        · intro h
          refine absurd ?_ hbad
          intro ch hch
          exact h ⟨dst, ch⟩ (List.mem_append_left _ (List.mem_map_of_mem _ hch))
      · exact (appendChunks_log_sublist env dst (chunk50 sanitized)).trans
          (List.sublist_append_left _ _)
      · exact fun c hc => appendChunks_log_ok env dst (chunk50 sanitized) c hc
      · intro h
        exact absurd h (by simp)
    · rcases u
      simp only [hph]
      have hphok : (appendChunks env dst (chunk50 sanitized)).1 = .ok () := hph
      have hlog := appendChunks_log_of_ok env dst (chunk50 sanitized) hphok
      have hlevelok : ∀ ch ∈ chunk50 sanitized, env.appendOk dst ch = true :=
        (appendChunks_ok_iff env dst (chunk50 sanitized)).mp hphok
      refine ⟨?_, ?_, ?_, ?_⟩
      · rw [lv1]
        constructor
        · intro h x hx
          rcases List.mem_append.mp hx with hx | hx
          · obtain ⟨ch, hch, rfl⟩ := List.mem_map.mp hx
            exact hlevelok ch hch
          · obtain ⟨l, hl, hxl⟩ := List.mem_flatten.mp hx
            obtain ⟨c, hc, rfl⟩ := List.mem_map.mp hl
            exact h c hc x hxl
        · intro h c hc x hx
          refine h x (List.mem_append_right _ ?_)
          exact List.mem_flatten.mpr ⟨_, List.mem_map_of_mem _ hc, hx⟩
      · exact List.Sublist.append (hlog ▸ List.Sublist.refl _) lv2
      · intro x hx
        rcases List.mem_append.mp hx with hx | hx
        · exact appendChunks_log_ok env dst (chunk50 sanitized) x hx
        · exact lv3 x hx
      · intro h
        rw [hlog, lv4 h]

/-! Lemmas about sanitization of well-behaved blocks. -/

theorem setFieldList_self (k : String) (v : Json) :
    ∀ (fields : List (String × Json)) (kv0 : String × Json),
      fields.find? (fun kv => kv.1 == k) = some kv0 → kv0.2 = v →
      setFieldList k v fields = fields := by
  intro fields
  induction fields with
  | nil =>
    intro kv0 hfind _
    simp [List.find?] at hfind
  | cons kv rest ih =>
    intro kv0 hfind hv
    by_cases hk : (kv.1 == k) = true
    · simp only [List.find?, hk, cond_true] at hfind
      have hkv : kv0 = kv := by injection hfind with h2; exact h2.symm
      subst hkv
      rw [setFieldList, if_pos hk]
      have hkk : kv0.1 = k := eq_of_beq hk
      rw [← hv, ← hkk]
    · have hk' : (kv.1 == k) = false := by simpa using hk
      simp only [List.find?, hk', cond_false] at hfind
      rw [setFieldList, if_neg hk, ih kv0 hfind hv]

theorem map_spreadCopy_of_obj (l : List Json) (h : isObjList l = true) :
    l.map spreadCopy = l := by
  have h' := List.all_eq_true.mp h
  have hmap : l.map spreadCopy = l.map id := by
    apply List.map_congr_left
    intro x hx
    have hx' := h' x hx
    match x, hx' with
    | .obj fields, _ => rfl
  simpa using hmap

theorem setField_getField_self (p : Json) (k : String) (v : Json)
    (h : getField p k = some v) : setField p k v = p := by
  match p with
  | .obj fields =>
    rcases hf : fields.find? (fun kv => kv.1 == k) with - | kv0
    · rw [getField, hf] at h
      simp at h
    · rw [getField, hf] at h
      simp only [Option.map_some'] at h
      have hv : kv0.2 = v := by injection h
      rw [setField, setFieldList_self k v fields kv0 hf hv]
  | .null => simp [getField] at h
  | .bool b => simp [getField] at h
  | .num n => simp [getField] at h
  | .str s => simp [getField] at h
  | .arr es => simp [getField] at h

theorem isArrOfObj_cases (v : Json) (h : isArrOfObj v = true) :
    ∃ l, v = Json.arr l ∧ isObjList l = true := by
  rcases v with - | bv | nv | sv | la | fo
  · simp [isArrOfObj] at h
  · simp [isArrOfObj] at h
  · simp [isArrOfObj] at h
  · simp [isArrOfObj] at h
  · exact ⟨la, rfl, h⟩
  · simp [isArrOfObj] at h

theorem sanitizeBlock_wf (b : Block) (h : wfBlock b = true) :
    sanitizeBlock b = .ok ⟨b.ty, truthyPayload b.payload, b.has_children⟩ := by
  rcases hpay : b.payload with - | p
  · simp [sanitizeBlock, hpay, truthyPayload]
  · simp only [wfBlock, hpay] at h
    simp only [sanitizeBlock, hpay, truthyPayload]
    by_cases htr : jsTruthy p = true
    · simp only [htr, if_true] at h ⊢
      rcases hrt : getField p "rich_text" with - | v
      · simp [richTextApply]
      · rw [hrt] at h
        rw [richTextOkAt] at h
        rw [richTextApply]
        by_cases hvt : jsTruthy v = true
        · rw [if_pos hvt]
          rw [hvt] at h
          simp only [Bool.not_true, Bool.false_or] at h
          obtain ⟨la, rfl, hobj⟩ := isArrOfObj_cases v h
          rw [copyArr, map_spreadCopy_of_obj la hobj,
            setField_getField_self p "rich_text" (.arr la) hrt]
        · rw [if_neg hvt]
    · have htr2 : jsTruthy p = false := by simpa using htr
      simp [htr2]

theorem mapM_sanitize_wf (bs : List Block) (h : ∀ b ∈ bs, wfBlock b = true) :
    bs.mapM sanitizeBlock =
      .ok (bs.map fun b => SBlock.mk b.ty (truthyPayload b.payload) b.has_children) := by
  induction bs with
  | nil => rfl
  | cons b rest ih =>
    rw [List.mapM_cons, sanitizeBlock_wf b (h b (List.mem_cons_self b rest)),
      ih (fun b' hb' => h b' (List.mem_cons_of_mem _ hb'))]
    rfl

theorem sanitizeBlocks_wf (bs : List Block) (h : ∀ b ∈ bs, wfBlock b = true) :
    sanitizeBlocks bs =
      .ok (bs.map fun b => SBlock.mk b.ty (truthyPayload b.payload) b.has_children) := by
  rw [sanitizeBlocks, mapM_sanitize_wf bs h]
  simp [List.filter_eq_self]

/-- C5: the future of a `cloneBlocksRecursive` call reflects every subtree
replication it spawned, transitively: it resolves exactly when every append
call of the whole subtree's ideal call log succeeded (so a fatal or
retry-exhausted failure anywhere in the subtree rejects the top-level
future), in which case the created log is the whole ideal log; and
destination nodes already created are never rolled back — the surviving log
is always an in-order sublist of the ideal log consisting of the successful
calls, no deletion ever occurring. -/
theorem claim_C5 (env : RemoteEnv) (t : BTree) (dst : String) (hsane : saneT t = true) :
    (((cloneBlocksRecursive env t dst).1 = .ok ()) ↔
        ∀ c ∈ fullCalls t dst, env.appendOk c.parent c.chunk = true) ∧
    ((cloneBlocksRecursive env t dst).1 = .ok () →
        (cloneBlocksRecursive env t dst).2 = fullCalls t dst) ∧
    (cloneBlocksRecursive env t dst).2.Sublist (fullCalls t dst) ∧
    (∀ c ∈ (cloneBlocksRecursive env t dst).2, env.appendOk c.parent c.chunk = true) := by
  obtain ⟨h1, h2, h3, h4⟩ := clone_spec t env dst hsane
  exact ⟨h1, h4, h2, h3⟩

theorem saneT_mkLeaf (i : String) : saneT (mkLeaf i) = true := by
  rw [mkLeaf, saneT]
  decide

theorem saneT_two_level : saneT (BTree.node "r" "page" none [mkLeaf "a"]) = true := by
  rw [saneT]
  have h1 : [mkLeaf "a"].attach.all (fun c => saneT c.1) = true := by
    rw [List.all_eq_true]
    intro x _
    have hx1 : x.1 = mkLeaf "a" := List.mem_singleton.mp x.2
    show saneT x.1 = true
    rw [hx1]
    exact saneT_mkLeaf "a"
  rw [h1, Bool.and_true]
  decide

/-- Witness for C5: a two-level tree replicated in an all-successful
environment; its created log is an in-order sublist of the ideal log. -/
theorem claim_C5_witness :
    (cloneBlocksRecursive allOkEnv (BTree.node "r" "page" none [mkLeaf "a"]) "d").2.Sublist
      (fullCalls (BTree.node "r" "page" none [mkLeaf "a"]) "d") :=
  (claim_C5 allOkEnv (BTree.node "r" "page" none [mkLeaf "a"]) "d" saneT_two_level).2.2.1

theorem sanitizeBlocks_leaves (ids : List String) :
    sanitizeBlocks ((ids.map mkLeaf).map blockOf) =
      .ok (ids.map fun _ => SBlock.mk "paragraph" none false) := by
  have hbl : (ids.map mkLeaf).map blockOf =
      ids.map (fun i => Block.mk i "" "paragraph" none false) := by
    rw [List.map_map]
    apply List.map_congr_left
    intro i _
    rfl
  rw [hbl, sanitizeBlocks_wf]
  · rw [List.map_map]
    rfl
  · intro b hb
    obtain ⟨i, -, rfl⟩ := List.mem_map.mp hb
    rfl

theorem clone_leaves (ids : List String) (dst : String) :
    cloneBlocksRecursive allOkEnv (BTree.node "root" "page" none (ids.map mkLeaf)) dst =
      (.ok (), (chunk50 (ids.map fun _ => SBlock.mk "paragraph" none false)).map
          (fun ch => AppendCall.mk dst ch)) := by
  rw [cloneBlocksRecursive_sanitize_ok allOkEnv "root" "page" none (ids.map mkLeaf) dst
    (ids.map fun _ => SBlock.mk "paragraph" none false) (sanitizeBlocks_leaves ids)]
  have hphok : (appendChunks allOkEnv dst
      (chunk50 (ids.map fun _ => SBlock.mk "paragraph" none false))).1 = .ok () :=
    (appendChunks_ok_iff _ _ _).mpr (fun _ _ => rfl)
  rw [hphok]
  have hmapg : ((ids.map mkLeaf).map fun c =>
      if c.children.isEmpty then ((.ok () : Except String Unit), ([] : List AppendCall))
      else cloneBlocksRecursive allOkEnv c (destId c.id)) =
      (ids.map mkLeaf).map (fun _ => ((.ok () : Except String Unit), ([] : List AppendCall))) := by
    apply List.map_congr_left
    intro c hc
    obtain ⟨i, -, rfl⟩ := List.mem_map.mp hc
    rfl
  rw [hmapg]
  have hcomb : combineResults (((ids.map mkLeaf).map
      (fun _ => ((.ok () : Except String Unit), ([] : List AppendCall)))).map fun r => r.1) =
      .ok () := by
    apply (combineResults_ok_iff _).mpr
    intro r hr
    rw [List.map_map] at hr
    obtain ⟨c, -, rfl⟩ := List.mem_map.mp hr
    rfl
  rw [hcomb]
  have hlogs : (((ids.map mkLeaf).map
      (fun _ => ((.ok () : Except String Unit), ([] : List AppendCall)))).map
        fun r => r.2).flatten = ([] : List AppendCall) := by
    rw [List.map_map, List.flatten_eq_nil_iff]
    intro l hl
    obtain ⟨c, -, rfl⟩ := List.mem_map.mp hl
    rfl
  rw [hlogs, List.append_nil,
    appendChunks_log_of_ok allOkEnv dst _ hphok]

/-- C6: the replicator creates each level's sanitized children in
`ceil(n / 50)` sequential batches of at most 50, in source order — the
chunking loop splits any list into `(n + 49) / 50` chunks of at most 50
whose in-order concatenation is the original list — and the replicator's
call log for a node with `n` leaf children consists of exactly those
chunks, appended to the destination in order; 60 children produce exactly
two batches of 50 and 10, and 0 children produce no creation call at
all. -/
theorem claim_C6 :
    (∀ l : List SBlock, (chunk50 l).length = (l.length + 49) / 50 ∧
        (∀ ch ∈ chunk50 l, ch.length ≤ 50) ∧ (chunk50 l).flatten = l) ∧
    (∀ (ids : List String) (dst : String),
        cloneBlocksRecursive allOkEnv (BTree.node "root" "page" none (ids.map mkLeaf)) dst =
          (.ok (), (chunk50 (ids.map fun _ => SBlock.mk "paragraph" none false)).map
              (fun ch => AppendCall.mk dst ch))) ∧
    ((cloneBlocksRecursive allOkEnv
        (BTree.node "root" "page" none ((List.replicate 60 "x").map mkLeaf)) "d").2.map
          (fun c => c.chunk.length) = [50, 10]) ∧
    cloneBlocksRecursive allOkEnv (BTree.node "root" "page" none []) "d" = (.ok (), []) := by
  refine ⟨?_, clone_leaves, ?_, ?_⟩
  · intro l
    exact ⟨chunk50_length l, chunk50_mem_le l, chunk50_flatten l⟩
  · rw [show (BTree.node "root" "page" none ((List.replicate 60 "x").map mkLeaf)) =
        (BTree.node "root" "page" none (((List.replicate 60 "x") : List String).map mkLeaf))
      from rfl, clone_leaves]
    decide
  · have h := clone_leaves [] "d"
    simpa using h

/-- Witness for C6 at the concrete 60-child instance: two batches, of 50
then 10 children. -/
theorem claim_C6_witness :
    (cloneBlocksRecursive allOkEnv
        (BTree.node "root" "page" none ((List.replicate 60 "x").map mkLeaf)) "d").2.map
      (fun c => c.chunk.length) = [50, 10] :=
  claim_C6.2.2.1

/-- Counterexample to C7 as stated. `sanitizeBlocks` is not total: a block
whose payload carries a truthy non-array `rich_text` value makes
`base[type].rich_text.map` throw a `TypeError`, failing the whole call
instead of passing the block through. And a block whose payload is present
but falsy (here `false`) is passed through with its type tag but WITHOUT
the payload — `if (b[type])` skips the copy — rather than with a copy of
its payload. -/
theorem claim_C7_counterexample :
    sanitizeBlocks [Block.mk "b1" "t0" "bogus"
        (some (Json.obj [("rich_text", Json.str "boom")])) false] =
      .error "TypeError: rich_text.map is not a function" ∧
    sanitizeBlocks [Block.mk "b2" "t0" "bogus" (some (Json.bool false)) true] =
      .ok [SBlock.mk "bogus" none true] :=
  ⟨rfl, rfl⟩

/-- C7 (amended): for every input list of blocks whose payloads, when
present and truthy, carry no truthy non-array `rich_text` field,
`sanitizeBlocks` succeeds and returns a list of the same length in the same
order; each output element consists of exactly the type discriminator, the
value-equal copy of the type-specific payload when that payload is present
and truthy (a falsy or absent payload is omitted), and the `has_children`
marker when set on the source — server-managed fields are stripped, and a
block with an unrecognized type is passed through rather than dropped.
Blocks outside this well-behaved class can instead abort the call with a
`TypeError` (see the counterexample). -/
theorem claim_C7 (bs : List Block) (hwf : ∀ b ∈ bs, wfBlock b = true) :
    sanitizeBlocks bs =
      .ok (bs.map fun b => SBlock.mk b.ty (truthyPayload b.payload) b.has_children) ∧
    ∀ out, sanitizeBlocks bs = .ok out → out.length = bs.length := by
  refine ⟨sanitizeBlocks_wf bs hwf, ?_⟩
  intro out hout
  rw [sanitizeBlocks_wf bs hwf] at hout
  injection hout with h
  rw [← h, List.length_map]

/-- Witness for C7 (amended): an ordinary paragraph block with object
rich-text (payload preserved), an unrecognized type with a truthy payload
(passed through), and a block with no payload at all. -/
theorem claim_C7_witness :
    sanitizeBlocks
        [Block.mk "b1" "t" "paragraph"
            (some (Json.obj [("rich_text", Json.arr [Json.obj [("type", Json.str "text")]]),
              ("color", Json.str "default")])) true,
         Block.mk "b2" "t" "weird_custom_type" (some (Json.obj [])) false,
         Block.mk "b3" "t" "mystery" none false] =
      .ok ([Block.mk "b1" "t" "paragraph"
              (some (Json.obj [("rich_text", Json.arr [Json.obj [("type", Json.str "text")]]),
                ("color", Json.str "default")])) true,
            Block.mk "b2" "t" "weird_custom_type" (some (Json.obj [])) false,
            Block.mk "b3" "t" "mystery" none false].map
          fun b => SBlock.mk b.ty (truthyPayload b.payload) b.has_children) :=
  (claim_C7 _ (by decide)).1

/-- C10 (refuted — the code contradicts its own documentation): the
signing/verification round trip fails. `buildActionUrl` signs the payload
built from `params[k] || …` where `params` holds only `taskId`, `tasksDbId`
and `calendarDbId` (src/index.js lines 610-612), so the `ts` and `nonce`
positions of the signed payload are empty strings; both backends'
`verifySignature` recompute the HMAC over the payload documented at
src/backend-template/vercel/api/index.js line 7, which embeds the URL's
actual (nonempty) `ts` and `nonce`. The two HMAC inputs therefore differ at
every concrete input, and whenever the HMAC function does not collide on
them — as a real HMAC-SHA256 does not — verification returns `false`. -/
theorem claim_C10_bug :
    ∀ hmac : String → String → String,
      verifierPayload (buildActionUrl hmac "https://x.example" "start" "t1" "db1" "db2"
          "s3cr3t" "1700000000000" "n1") ≠
        builderPayload "start" "t1" "db1" "db2" ∧
      (hmac "s3cr3t" (builderPayload "start" "t1" "db1" "db2") ≠
          hmac "s3cr3t" (verifierPayload (buildActionUrl hmac "https://x.example" "start"
            "t1" "db1" "db2" "s3cr3t" "1700000000000" "n1")) →
        verifySignature hmac "s3cr3t"
          (buildActionUrl hmac "https://x.example" "start" "t1" "db1" "db2" "s3cr3t"
            "1700000000000" "n1") = false) := by
  intro hmac
  constructor
  · intro he
    have : ("t1|start|1700000000000|n1|db1|db2" : String) = "t1|start|||db1|db2" := he
    simp at this
  · intro hne
    unfold verifySignature
    by_cases hguard : ((buildActionUrl hmac "https://x.example" "start" "t1" "db1" "db2"
        "s3cr3t" "1700000000000" "n1").sig == "" ||
        (buildActionUrl hmac "https://x.example" "start" "t1" "db1" "db2"
          "s3cr3t" "1700000000000" "n1").action == "" ||
        (buildActionUrl hmac "https://x.example" "start" "t1" "db1" "db2"
          "s3cr3t" "1700000000000" "n1").taskId == "" ||
        (buildActionUrl hmac "https://x.example" "start" "t1" "db1" "db2"
          "s3cr3t" "1700000000000" "n1").ts == "" ||
        (buildActionUrl hmac "https://x.example" "start" "t1" "db1" "db2"
          "s3cr3t" "1700000000000" "n1").nonce == "") = true
    · rw [if_pos hguard]
    · rw [if_neg hguard]
      rw [beq_eq_false_iff_ne]
      intro he
      exact hne he.symm

/-- Witness for C10: with a concrete (collision-free on these two inputs)
keyed hash, the URL built by `buildActionUrl` is rejected by
`verifySignature` under the same secret. -/
theorem claim_C10_witness :
    verifySignature (fun _ m => m) "s3cr3t"
      (buildActionUrl (fun _ m => m) "https://x.example" "start" "t1" "db1" "db2" "s3cr3t"
        "1700000000000" "n1") = false :=
  (claim_C10_bug (fun _ m => m)).2 (by decide)

end NotionImporter
